import Mathlib

/-!
Verification of the GPDB storage-engine core (an LSM-tree key-value store):
a shallow embedding of `src/types.rs`, `src/db/memtable.rs`, `src/db/wal.rs`,
`src/db/sstable.rs` and `src/db/database.rs`, followed by theorems settling
the specification claims.

Modelling conventions:
- `Arc<V>` is modelled as a plain `V` (shared ownership collapses to value
  equality in a pure embedding).
- Byte streams (`File` contents) are `List Nat`, each element a byte value;
  `BufReader` positions are explicit offsets; `read_exact` fails exactly when
  fewer bytes remain than requested, which is the `UnexpectedEof` case of the
  Rust code (a pure byte list has no other I/O failure mode, so injected
  `Bool` flags model the remaining I/O failures on the write path).
- The external crates `bincode` (serialization) and `crc32fast` (checksums)
  are parameters: theorems take the serializer/deserializer pair and the
  checksum function as arguments, assuming only the round-trip law for the
  codec and the `u32` range for the checksum; concrete executable instances
  are provided for witnesses.
- `BTreeMap` is modelled as a key-sorted association list, `HashMap` as a
  function `K → Option _`.
-/

namespace GPDB

/-- Entry (src/types.rs): the value stored for a key together with a
tombstone flag. `value : Option V` models `Option<Arc<V>>`. -/
structure Entry (V : Type) where
  value : Option V
  is_tombstone : Bool
deriving DecidableEq, Repr

/-- LogEntry (src/types.rs): the WAL record union, `Put(K, Arc<V>)` or
`Delete(K)`. -/
inductive LogEntry (K V : Type) where
  | Put : K → V → LogEntry K V
  | Delete : K → LogEntry K V
deriving DecidableEq, Repr

instance {E A : Type} [DecidableEq E] [DecidableEq A] : DecidableEq (Except E A) :=
  fun x y =>
  match x, y with
  | .ok a, .ok b =>
    if h : a = b then isTrue (by rw [h])
    else isFalse (by intro hc; injection hc; contradiction)
  | .error e, .error f =>
    if h : e = f then isTrue (by rw [h])
    else isFalse (by intro hc; injection hc; contradiction)
  | .ok _, .error _ => isFalse (by intro hc; exact Except.noConfusion hc)
  | .error _, .ok _ => isFalse (by intro hc; exact Except.noConfusion hc)

/-- First-match association-list lookup; models lookup in a map represented
as a list of key-value pairs. -/
def alookup {K A : Type} [DecidableEq K] : List (K × A) → K → Option A
  | [], _ => none
  | (k, a) :: rest, key => if k = key then some a else alookup rest key

/-- Insertion into a key-sorted association list; models
`BTreeMap::insert` (upsert keeping keys in ascending order). -/
def btreeInsert {K A : Type} [LinearOrder K] (l : List (K × A)) (key : K) (a : A) :
    List (K × A) :=
  match l with
  | [] => [(key, a)]
  | (k, b) :: rest =>
    if key < k then (key, a) :: (k, b) :: rest
    else if key = k then (key, a) :: rest
    else (k, b) :: btreeInsert rest key a

/-- MemTable (src/db/memtable.rs): dual-indexed in-memory buffer. The
`BTreeMap` is a key-sorted association list, the `HashMap` a function. -/
structure MemTable (K V : Type) where
  b_tree_map : List (K × Entry V)
  hash_map : K → Option (Entry V)

/-- MemTable::new. -/
def MemTable.new {K V : Type} : MemTable K V :=
  { b_tree_map := [], hash_map := fun _ => none }

/-- MemTable::put: upsert a live entry into both indexes. (The Rust method
also returns the previous entry; the returned-value part is not modelled.) -/
def MemTable.put {K V : Type} [LinearOrder K] (m : MemTable K V) (key : K) (value : V) :
    MemTable K V :=
  let entry : Entry V := { value := some value, is_tombstone := false }
  { hash_map := fun k => if k = key then some entry else m.hash_map k,
    b_tree_map := btreeInsert m.b_tree_map key entry }

/-- MemTable::delete: upsert a tombstone entry into both indexes. -/
def MemTable.delete {K V : Type} [LinearOrder K] (m : MemTable K V) (key : K) :
    MemTable K V :=
  let entry : Entry V := { value := none, is_tombstone := true }
  { hash_map := fun k => if k = key then some entry else m.hash_map k,
    b_tree_map := btreeInsert m.b_tree_map key entry }

/-- MemTable::get: look up in the hash index, filter out tombstones, return
the value. -/
def MemTable.get {K V : Type} (m : MemTable K V) (key : K) : Option V :=
  match m.hash_map key with
  | some entry => if entry.is_tombstone then none else entry.value
  | none => none

/-- MemTable::clear: empty both indexes. -/
def MemTable.clear {K V : Type} (_m : MemTable K V) : MemTable K V :=
  MemTable.new

/-- An external MemTable operation (put, delete or clear), for stating
invariants over arbitrary operation sequences. -/
inductive MOp (K V : Type) where
  | putOp : K → V → MOp K V
  | deleteOp : K → MOp K V
  | clearOp : MOp K V

/-- Apply one MemTable operation. -/
def applyMOp {K V : Type} [LinearOrder K] (m : MemTable K V) : MOp K V → MemTable K V
  | .putOp k v => m.put k v
  | .deleteOp k => m.delete k
  | .clearOp => m.clear

/-- Apply a sequence of MemTable operations in order. -/
def applyMOps {K V : Type} [LinearOrder K] (m : MemTable K V) (ops : List (MOp K V)) :
    MemTable K V :=
  ops.foldl applyMOp m

/-- Apply one recovered WAL record to the MemTable, as in the recovery loop
of DB::open (src/db/database.rs): `Put` upserts, `Delete` inserts a
tombstone. -/
def applyLogEntry {K V : Type} [LinearOrder K] (m : MemTable K V) :
    LogEntry K V → MemTable K V
  | .Put k v => m.put k v
  | .Delete k => m.delete k

/-- Replay a list of WAL records into a MemTable, in order. -/
def applyLog {K V : Type} [LinearOrder K] (m : MemTable K V) (l : List (LogEntry K V)) :
    MemTable K V :=
  l.foldl applyLogEntry m

/-- Little-endian byte encoding of a natural number in `w` bytes; models
`u32::to_le_bytes` (w = 4) and `u64::to_le_bytes` (w = 8). -/
def leBytes : Nat → Nat → List Nat
  | 0, _ => []
  | w + 1, n => n % 256 :: leBytes w (n / 256)

/-- Little-endian byte decoding; models `u32::from_le_bytes` and
`u64::from_le_bytes`. -/
def fromLE : List Nat → Nat
  | [] => 0
  | b :: rest => b + 256 * fromLE rest

/-- The shared record frame `[crc32 (4 bytes LE)][length (8 bytes LE)][payload]`
written by Wal::append and SSTable::write_from_memtable. -/
def frame (crc : List Nat → Nat) (payload : List Nat) : List Nat :=
  leBytes 4 (crc payload) ++ leBytes 8 payload.length ++ payload

/-- WalIterator::next (src/db/wal.rs): read 4 CRC bytes (an `UnexpectedEof`
there — fewer than 4 bytes remaining — is a clean end of stream, `none`),
then 8 length bytes, then the payload, verify the CRC, deserialize. Every
failure after the CRC read yields an error item. `crc` models `crc32fast`,
`deserLog` models `bincode::deserialize` for `LogEntry`. -/
def walNext {K V : Type} (crc : List Nat → Nat)
    (deserLog : List Nat → Option (LogEntry K V)) (bytes : List Nat) (pos : Nat) :
    Option (Except String (LogEntry K V)) :=
  let rem := bytes.drop pos
  if rem.length < 4 then none
  else
    let expected_checksum := fromLE (rem.take 4)
    let rem2 := rem.drop 4
    if rem2.length < 8 then some (.error "Failed to read log entry length")
    else
      let entry_len := fromLE (rem2.take 8)
      let avail := rem2.drop 8
      if avail.length < entry_len then some (.error "Failed to read log entry data")
      else
        let serialized_entry := avail.take entry_len
        if crc serialized_entry ≠ expected_checksum then
          some (.error "WAL entry checksum mismatch")
        else
          match deserLog serialized_entry with
          | some entry => some (.ok entry)
          | none => some (.error "deserialization failure")

/-- The data-section loop of SSTable::write_from_memtable
(src/db/sstable.rs): emit one frame per MemTable entry in sorted order,
recording each key's starting offset; `current_offset` advances by
`4 + 8 + len`. Returns (data section bytes, index association list). -/
def buildData {K V : Type} (crc : List Nat → Nat) (serEntry : Entry V → List Nat) :
    List (K × Entry V) → Nat → List Nat × List (K × Nat)
  | [], _ => ([], [])
  | (k, e) :: rest, current_offset =>
    let serialized_entry := serEntry e
    let fr := frame crc serialized_entry
    let r := buildData crc serEntry rest (current_offset + 4 + 8 + serialized_entry.length)
    (fr ++ r.1, (k, current_offset) :: r.2)

/-- The SSTable magic number (src/db/sstable.rs). -/
def MAGIC : Nat := 0xDEADC0DEBEEFCAFE

/-- The full file content produced by SSTable::write_from_memtable: data
section, raw serialized index, then the 24-byte footer
`index_offset, index_size, magic` (all u64 LE). -/
def sstFileBytes {K V : Type} (crc : List Nat → Nat) (serEntry : Entry V → List Nat)
    (serIndex : List (K × Nat) → List Nat) (m : MemTable K V) : List Nat :=
  let d := buildData crc serEntry m.b_tree_map 0
  let serialized_index := serIndex d.2
  d.1 ++ serialized_index ++ leBytes 8 d.1.length ++ leBytes 8 serialized_index.length
    ++ leBytes 8 MAGIC

/-- An opened SSTable handle: path, file content, in-memory index
(src/db/sstable.rs, struct SSTable). -/
structure SSTModel (K : Type) where
  path : String
  file : List Nat
  index : List (K × Nat)
deriving DecidableEq, Repr

/-- SSTable::open: check the file holds a footer, read `index_offset`,
`index_size` and the magic from the last 24 bytes, reject a wrong magic,
read and deserialize the index. Any failure is `none`. -/
def sstOpen {K : Type} (deserIndex : List Nat → Option (List (K × Nat)))
    (path : String) (file : List Nat) : Option (SSTModel K) :=
  if file.length < 24 then none
  else
    let footer := file.drop (file.length - 24)
    let index_offset := fromLE (footer.take 8)
    let index_size := fromLE ((footer.drop 8).take 8)
    let magic := fromLE ((footer.drop 16).take 8)
    if magic ≠ MAGIC then none
    else
      let index_region := file.drop index_offset
      if index_region.length < index_size then none
      else
        match deserIndex (index_region.take index_size) with
        | some index => some { path := path, file := file, index := index }
        | none => none

/-- SSTable::get: look the key up in the in-memory index; on a hit seek to
the offset, read one frame, verify the CRC, deserialize the Entry. -/
def sstGet {K V : Type} [DecidableEq K] (crc : List Nat → Nat)
    (deserEntry : List Nat → Option (Entry V)) (t : SSTModel K) (key : K) :
    Except String (Option (Entry V)) :=
  match alookup t.index key with
  | none => .ok none
  | some offset =>
    let rest := t.file.drop offset
    if rest.length < 4 then .error "failed to fill whole buffer"
    else
      let expected_checksum := fromLE (rest.take 4)
      let rest2 := rest.drop 4
      if rest2.length < 8 then .error "failed to fill whole buffer"
      else
        let entry_len := fromLE (rest2.take 8)
        let avail := rest2.drop 8
        if avail.length < entry_len then .error "failed to fill whole buffer"
        else
          let serialized_entry := avail.take entry_len
          if crc serialized_entry ≠ expected_checksum then .error "Checksum mismatch"
          else
            match deserEntry serialized_entry with
            | some entry => .ok (some entry)
            | none => .error "deserialization failure"

/-- SSTable::write_from_memtable: write the file and return `Self::open` on
it. -/
def writeFromMemtable {K V : Type} (crc : List Nat → Nat)
    (serEntry : Entry V → List Nat) (serIndex : List (K × Nat) → List Nat)
    (deserIndex : List Nat → Option (List (K × Nat))) (path : String)
    (m : MemTable K V) : Option (SSTModel K) :=
  sstOpen deserIndex path (sstFileBytes crc serEntry serIndex m)

/-- Lexicographic Bool-valued order on char lists; models the `Ord`
comparison of Rust path strings used by the `sort_by` calls. -/
def charListLe : List Char → List Char → Bool
  | [], _ => true
  | _ :: _, [] => false
  | a :: as, b :: bs => if a < b then true else if b < a then false else charListLe as bs

/-- Insertion step of a stable insertion sort with a Bool-valued order. -/
def insertLe {A : Type} (le : A → A → Bool) (a : A) : List A → List A
  | [] => [a]
  | b :: rest => if le a b then a :: b :: rest else b :: insertLe le a rest

/-- Stable insertion sort; models the (stable) `sort_by` on Vec. -/
def sortLe {A : Type} (le : A → A → Bool) : List A → List A
  | [] => []
  | a :: rest => insertLe le a (sortLe le rest)

/-- Sort SSTables by path, as `levels[0].sort_by(|a, b| a.path().cmp(&b.path()))`. -/
def sortByPath {K : Type} (l : List (SSTModel K)) : List (SSTModel K) :=
  sortLe (fun a b => charListLe a.path.data b.path.data) l

/-- The DB struct (src/db/database.rs): MemTable, WAL content (the logical
list of appended records), levels of SSTables, and the size accounting. -/
structure DBState (K V : Type) where
  memtable : MemTable K V
  wal : List (LogEntry K V)
  levels : List (List (SSTModel K))
  max_memtable_size : Nat
  memtable_size : Nat

/-- Observable side-effect events of the write path, in program order. -/
inductive Ev where
  | append (ok : Bool)
  | flushWal (ok : Bool)
  | memPut
  | memDel
  | sstWrite (ok : Bool)
  | memClear
  | walClear
deriving DecidableEq, Repr

/-- The error type of the embedded I/O operations. -/
inductive DBErr where
  | ioErr
deriving DecidableEq, Repr

/-- The inner loop of DB::get: scan the SSTables of one level from newest to
oldest (the caller passes the level already reversed); the first table whose
`get` finds an Entry decides. -/
def scanTables {K V : Type} [DecidableEq K] (crc : List Nat → Nat)
    (deserEntry : List Nat → Option (Entry V)) :
    List (SSTModel K) → K → Except String (Option (Entry V))
  | [], _ => .ok none
  | t :: rest, key =>
    match sstGet crc deserEntry t key with
    | .error e => .error e
    | .ok (some entry) => .ok (some entry)
    | .ok none => scanTables crc deserEntry rest key

/-- The level loop of DB::get: levels in order; within a level iterate
`.rev()`; the first Entry found wins (tombstone yields absent, live entry
yields its value). -/
def dbGetLevels {K V : Type} [DecidableEq K] (crc : List Nat → Nat)
    (deserEntry : List Nat → Option (Entry V)) :
    List (List (SSTModel K)) → K → Except String (Option V)
  | [], _ => .ok none
  | level :: rest, key =>
    match scanTables crc deserEntry level.reverse key with
    | .error e => .error e
    | .ok (some entry) => if entry.is_tombstone then .ok none else .ok entry.value
    | .ok none => dbGetLevels crc deserEntry rest key

/-- DB::get (src/db/database.rs): consult the MemTable through
`MemTable::get`; on `None` fall through to the SSTable levels. -/
def dbGet {K V : Type} [DecidableEq K] (crc : List Nat → Nat)
    (deserEntry : List Nat → Option (Entry V)) (s : DBState K V) (key : K) :
    Except String (Option V) :=
  match s.memtable.get key with
  | some v => .ok (some v)
  | none => dbGetLevels crc deserEntry s.levels key

/-- DB::flush_memtable (src/db/database.rs): write the MemTable to a new
SSTable (`wf = true` injects an I/O failure in `write_from_memtable`); on
success push it onto level 0, re-sort level 0 by path, clear the MemTable,
reset `memtable_size`, and finally truncate the WAL. The event trace records
the side effects in program order. -/
def flushMemtable {K V : Type} (crc : List Nat → Nat) (serEntry : Entry V → List Nat)
    (serIndex : List (K × Nat) → List Nat)
    (deserIndex : List Nat → Option (List (K × Nat))) (wf : Bool) (name : String)
    (s : DBState K V) : Except DBErr Unit × DBState K V × List Ev :=
  match (if wf then none
         else writeFromMemtable crc serEntry serIndex deserIndex name s.memtable) with
  | none => (.error .ioErr, s, [.sstWrite false])
  | some new_sstable =>
    let level0 := sortByPath ((s.levels.headD []) ++ [new_sstable])
    let s1 := { s with levels := s.levels.set 0 level0 }
    let s2 := { s1 with memtable := s1.memtable.clear, memtable_size := 0 }
    let s3 := { s2 with wal := [] }
    (.ok (), s3, [.sstWrite true, .memClear, .walClear])

/-- DB::put (src/db/database.rs). `kSz`/`vSz` model
`size_of_val(&key)`/`size_of_val(&value)`; `af`, `ff`, `wf` inject I/O
failures into `wal.append`, `wal.flush` and the SSTable write of a triggered
flush. The accounting `memtable_size += key_size + value_size` happens
before the WAL append is attempted, exactly as in the source. -/
def dbPut {K V : Type} [LinearOrder K] (crc : List Nat → Nat)
    (serEntry : Entry V → List Nat) (serIndex : List (K × Nat) → List Nat)
    (deserIndex : List Nat → Option (List (K × Nat))) (kSz vSz : Nat)
    (af ff wf : Bool) (name : String) (s : DBState K V) (key : K) (value : V) :
    Except DBErr Unit × DBState K V × List Ev :=
  let s1 := { s with memtable_size := s.memtable_size + kSz + vSz }
  if af then (.error .ioErr, s1, [.append false])
  else
    let s2 := { s1 with wal := s1.wal ++ [LogEntry.Put key value] }
    if ff then (.error .ioErr, s2, [.append true, .flushWal false])
    else
      let s3 := { s2 with memtable := s2.memtable.put key value }
      if s3.memtable_size > s3.max_memtable_size then
        let r := flushMemtable crc serEntry serIndex deserIndex wf name s3
        (r.1, r.2.1, [.append true, .flushWal true, .memPut] ++ r.2.2)
      else (.ok (), s3, [.append true, .flushWal true, .memPut])

/-- DB::delete (src/db/database.rs): append `LogEntry::Delete` to the WAL,
flush it, then upsert a tombstone into the MemTable. No size accounting and
no flush trigger. -/
def dbDelete {K V : Type} [LinearOrder K] (af ff : Bool) (s : DBState K V) (key : K) :
    Except DBErr Unit × DBState K V × List Ev :=
  if af then (.error .ioErr, s, [.append false])
  else
    let s2 := { s with wal := s.wal ++ [LogEntry.Delete key] }
    if ff then (.error .ioErr, s2, [.append true, .flushWal false])
    else
      let s3 := { s2 with memtable := s2.memtable.delete key }
      (.ok (), s3, [.append true, .flushWal true, .memDel])

/-- Split a char list at every occurrence of a separator char; models
`str::split`. -/
def splitOnChar (c : Char) : List Char → List (List Char)
  | [] => [[]]
  | x :: rest =>
    let r := splitOnChar c rest
    if x = c then [] :: r else (x :: r.headD []) :: r.tail

/-- Parse a decimal natural from chars; models `str::parse::<usize>` on the
inputs that matter here (it deviates on a leading `+` sign and on overflow,
neither of which any theorem below exercises). -/
def parseNatChars (cs : List Char) : Option Nat :=
  if cs.isEmpty then none
  else if cs.all (fun c => c.isDigit) then
    some (cs.foldl (fun a c => a * 10 + (c.toNat - 48)) 0)
  else none

/-- `Path::extension` of a plain file name: the part after the last dot,
`none` when the name has no dot. -/
def extOf (f : String) : Option (List Char) :=
  match splitOnChar '.' f.data with
  | [] => none
  | [_] => none
  | ps => some (ps.getLastD [])

/-- The guard `!entry_path.is_file() || entry_path.extension().map_or(false,
|ext| ext != "sst")` of DB::load_levels, restricted to plain files: skip
exactly when an extension exists and differs from `sst`. -/
def skipNonSst (f : String) : Bool :=
  match extOf f with
  | none => false
  | some e => decide (e ≠ ['s', 's', 't'])

/-- Outcome of the per-file name handling in DB::load_levels. -/
inductive ParseOutcome where
  | panicked
  | skipWarn
  | levelIdx (n : Nat)
deriving DecidableEq, Repr

/-- The filename handling of DB::load_levels (src/db/database.rs): split on
`-`; the malformed warning guard `!parts.len() == 2 && parts[0].starts_with('L')`
cannot fire on realistic inputs (bitwise NOT of the length would have to
equal 2) and does not change control flow, so it is not modelled; then
`&parts[0][1..]` — which PANICS when `parts[0]` is empty — and
`level_str.parse::<usize>()`: `Ok` loads the file at that level, `Err` warns
and skips. -/
def parseSSTName (f : String) : ParseOutcome :=
  let parts := splitOnChar '-' f.data
  let p0 := parts.headD []
  if p0.isEmpty then .panicked
  else
    let level_str := p0.tail
    match parseNatChars level_str with
    | some n => .levelIdx n
    | none => .skipWarn

/-- Insert a file name at the front of its level's bucket in the sorted
association list modelling `BTreeMap<usize, Vec<SSTable>>` (front because
`loadLevels` folds from the right over the directory listing). -/
def insertLevel (m : List (Nat × List String)) (n : Nat) (f : String) :
    List (Nat × List String) :=
  match m with
  | [] => [(n, [f])]
  | (k, fs) :: rest =>
    if n < k then (n, [f]) :: (k, fs) :: rest
    else if n = k then (k, f :: fs) :: rest
    else (k, fs) :: insertLevel rest n f

/-- DB::load_levels (src/db/database.rs) over a directory listing of file
names: skip non-`.sst` files, handle each name with `parseSSTName` (a panic
aborts the scan), group loaded files by level in directory order. SSTables
are represented by their file names (the claims using this model concern
well-formed files, for which `SSTable::open` succeeds). -/
def loadLevels : List String → Except String (List (Nat × List String))
  | [] => .ok []
  | f :: rest =>
    if skipNonSst f then loadLevels rest
    else
      match parseSSTName f with
      | .panicked => .error "panicked: byte index 1 is out of bounds"
      | .skipWarn => loadLevels rest
      | .levelIdx n =>
        match loadLevels rest with
        | .error e => .error e
        | .ok m => .ok (insertLevel m n f)

/-- The local variable `levels` computed inside DB::open: pre-size to
`max_loaded_level + 1`, then place each level's tables sorted by file name. -/
def computedLevels (files : List String) : Except String (List (List String)) :=
  match loadLevels files with
  | .error e => .error e
  | .ok m =>
    let max_loaded_level := (m.map Prod.fst).foldr max 0
    let base := List.replicate (max_loaded_level + 1) ([] : List String)
    .ok (m.foldl (fun lv p => lv.set p.1 (sortLe (fun a b => charListLe a.data b.data) p.2)) base)

/-- The `levels` field of the DB value actually returned by DB::open: the
computed `levels` local is dropped and the struct literal uses
`levels: vec![Vec::new()]` (src/db/database.rs, the `Ok(DB { .. })`). -/
def openLevelsResult (files : List String) : Except String (List (List String)) :=
  match computedLevels files with
  | .error e => .error e
  | .ok _levels => .ok [[]]

/-- A concrete executable serializer for `Entry Nat`, standing in for
`bincode::serialize` in witnesses (the theorems only assume the round-trip
law, which this codec satisfies). -/
def serEntryToy : Entry Nat → List Nat
  | { value := some v, is_tombstone := false } => [0, v]
  | { value := none, is_tombstone := false } => [1]
  | { value := some v, is_tombstone := true } => [2, v]
  | { value := none, is_tombstone := true } => [3]

/-- The matching deserializer for `serEntryToy`. -/
def deserEntryToy : List Nat → Option (Entry Nat)
  | [0, v] => some { value := some v, is_tombstone := false }
  | [1] => some { value := none, is_tombstone := false }
  | [2, v] => some { value := some v, is_tombstone := true }
  | [3] => some { value := none, is_tombstone := true }
  | _ => none

/-- A concrete executable serializer for the key-to-offset index with `Nat`
keys: the flattened pair list. -/
def serIndexToy (l : List (Nat × Nat)) : List Nat :=
  match l with
  | [] => []
  | (k, off) :: rest => k :: off :: serIndexToy rest

/-- The matching deserializer for `serIndexToy`. -/
def deserIndexToy : List Nat → Option (List (Nat × Nat))
  | [] => some []
  | k :: off :: rest =>
    match deserIndexToy rest with
    | some l => some ((k, off) :: l)
    | none => none
  | _ => none

/-- A concrete executable serializer for `LogEntry Nat Nat`, for witnesses. -/
def serLogToy : LogEntry Nat Nat → List Nat
  | .Put k v => [0, k, v]
  | .Delete k => [1, k]

/-- The matching deserializer for `serLogToy`. -/
def deserLogToy : List Nat → Option (LogEntry Nat Nat)
  | [0, k, v] => some (.Put k v)
  | [1, k] => some (.Delete k)
  | _ => none

/-- A concrete executable checksum in `u32` range, standing in for
`crc32fast` in witnesses. -/
def crcToy (b : List Nat) : Nat :=
  (b.foldl (fun a x => a + 257 * x + 1) 0) % (2 ^ 32)

/-- The MemTable that was flushed in the C2 scenario: key 1 holds the live
value 42. -/
def memC2 : MemTable Nat Nat :=
  MemTable.new.put 1 42

/-- The level-0 SSTable of the C2 scenario, produced by
`write_from_memtable` from `memC2`. -/
def sstC2 : SSTModel Nat :=
  (writeFromMemtable crcToy serEntryToy serIndexToy deserIndexToy
    "L0-00000000000000000001.sst" memC2).getD { path := "", file := [], index := [] }

/-- The DB state of the C2 scenario: after the flush, `DB::delete(1)` has
put a tombstone for key 1 into the MemTable; level 0 holds `sstC2`. -/
def stateC2 : DBState Nat Nat :=
  { memtable := MemTable.new.delete 1,
    wal := [LogEntry.Delete 1],
    levels := [[sstC2]],
    max_memtable_size := 1000000,
    memtable_size := 0 }

/-- Left-biased choice on options (`a.or b`), used to state lookup
characterizations. -/
def orO {A : Type} : Option A → Option A → Option A
  | some a, _ => some a
  | none, b => b

/-- The Entry a WAL record writes for key `k`, if it touches `k`. -/
def logTouch {K V : Type} [DecidableEq K] (k : K) : LogEntry K V → Option (Entry V)
  | .Put k0 v => if k0 = k then some { value := some v, is_tombstone := false } else none
  | .Delete k0 => if k0 = k then some { value := none, is_tombstone := true } else none

/-- The MemTable consistency invariant: the sorted index and the hashed
index agree on every key. -/
def memInv {K V : Type} [LinearOrder K] (m : MemTable K V) : Prop :=
  ∀ k, alookup m.b_tree_map k = m.hash_map k

/-- Keys of an association list are strictly ascending (the `BTreeMap`
representation invariant). -/
def sortedKeys {K A : Type} [LinearOrder K] (l : List (K × A)) : Prop :=
  l.Pairwise (fun p q => p.1 < q.1)

/-- A small concrete DB state used to exercise the write path at concrete
inputs. -/
def dbS0 : DBState Nat Nat :=
  { memtable := MemTable.new,
    wal := [],
    levels := [[]],
    max_memtable_size := 100,
    memtable_size := 0 }

/-- A small concrete MemTable holding one live entry and one tombstone. -/
def memC5 : MemTable Nat Nat :=
  (MemTable.new.put 1 42).delete 2

theorem memtable_eq {K V : Type} {m₁ m₂ : MemTable K V}
    (h1 : m₁.b_tree_map = m₂.b_tree_map) (h2 : m₁.hash_map = m₂.hash_map) : m₁ = m₂ := by
  cases m₁; cases m₂; simp_all

theorem alookup_btreeInsert {K A : Type} [LinearOrder K] (l : List (K × A)) (key k : K)
    (a : A) :
    alookup (btreeInsert l key a) k = if key = k then some a else alookup l k := by
  induction l with
  | nil => simp [btreeInsert, alookup]
  | cons p rest ih =>
    obtain ⟨k0, b⟩ := p
    by_cases h1 : key < k0
    · simp [btreeInsert, h1, alookup]
    · by_cases h2 : key = k0
      · subst h2
        by_cases h3 : key = k
        · simp [btreeInsert, h1, alookup, h3]
        · simp [btreeInsert, h1, alookup, h3]
      · by_cases h5 : k0 = k
        · subst h5
          simp [btreeInsert, h1, h2, alookup]
        · simp [btreeInsert, h1, h2, alookup, h5, ih]

theorem mem_btreeInsert {K A : Type} [LinearOrder K] {l : List (K × A)} {key : K} {a : A}
    {q : K × A} (h : q ∈ btreeInsert l key a) : q = (key, a) ∨ q ∈ l := by
  induction l with
  | nil => simpa [btreeInsert] using h
  | cons p rest ih =>
    obtain ⟨k0, b⟩ := p
    by_cases h1 : key < k0
    · simp only [btreeInsert, if_pos h1, List.mem_cons] at h
      rcases h with h | h | h
      · exact Or.inl h
      · exact Or.inr (by simp [h])
      · exact Or.inr (by simp [h])
    · by_cases h2 : key = k0
      · simp only [btreeInsert, if_neg h1, if_pos h2, List.mem_cons] at h
        rcases h with h | h
        · exact Or.inl h
        · exact Or.inr (by simp [h])
      · simp only [btreeInsert, if_neg h1, if_neg h2, List.mem_cons] at h
        rcases h with h | h
        · exact Or.inr (by simp [h])
        · rcases ih h with h | h
          · exact Or.inl h
          · exact Or.inr (by simp [h])

theorem sortedKeys_btreeInsert {K A : Type} [LinearOrder K] {l : List (K × A)} (key : K)
    (a : A) (h : sortedKeys l) : sortedKeys (btreeInsert l key a) := by
  induction l with
  | nil => simp [btreeInsert, sortedKeys]
  | cons p rest ih =>
    obtain ⟨k0, b⟩ := p
    rw [sortedKeys, List.pairwise_cons] at h
    obtain ⟨hhead, hrest⟩ := h
    by_cases h1 : key < k0
    · rw [sortedKeys, btreeInsert]
      simp only [if_pos h1]
      rw [List.pairwise_cons]
      constructor
      · intro q hq
        simp only [List.mem_cons] at hq
        rcases hq with hq | hq
        · simp [hq, h1]
        · exact lt_trans h1 (hhead q hq)
      · rw [List.pairwise_cons]
        exact ⟨hhead, hrest⟩
    · by_cases h2 : key = k0
      · rw [sortedKeys, btreeInsert]
        simp only [if_neg h1, if_pos h2]
        rw [List.pairwise_cons]
        constructor
        · intro q hq
          simpa [h2] using hhead q hq
        · exact hrest
      · rw [sortedKeys, btreeInsert]
        simp only [if_neg h1, if_neg h2]
        rw [List.pairwise_cons]
        constructor
        · intro q hq
          rcases mem_btreeInsert hq with hq | hq
          · have h3 : k0 < key := lt_of_le_of_ne (not_lt.mp h1) (fun h4 => h2 h4.symm)
            simp [hq, h3]
          · exact hhead q hq
        · exact ih hrest

theorem alookup_eq_none_of_forall_ne {K A : Type} [DecidableEq K] {l : List (K × A)}
    {k : K} (h : ∀ p ∈ l, p.1 ≠ k) : alookup l k = none := by
  induction l with
  | nil => rfl
  | cons p rest ih =>
    obtain ⟨k0, b⟩ := p
    have h0 : k0 ≠ k := h (k0, b) (by simp)
    rw [alookup, if_neg h0]
    exact ih (fun q hq => h q (by simp [hq]))

theorem sorted_alookup_ext {K A : Type} [LinearOrder K] :
    ∀ (l₁ l₂ : List (K × A)), sortedKeys l₁ → sortedKeys l₂ →
      (∀ k, alookup l₁ k = alookup l₂ k) → l₁ = l₂ := by
  intro l₁
  induction l₁ with
  | nil =>
    intro l₂ _ h₂ h
    cases l₂ with
    | nil => rfl
    | cons p t =>
      obtain ⟨k2, v2⟩ := p
      have := h k2
      simp [alookup] at this
  | cons p t₁ ih =>
    obtain ⟨k1, v1⟩ := p
    intro l₂ h₁ h₂ h
    cases l₂ with
    | nil =>
      have := h k1
      simp [alookup] at this
    | cons q t₂ =>
      obtain ⟨k2, v2⟩ := q
      rw [sortedKeys, List.pairwise_cons] at h₁ h₂
      obtain ⟨hh₁, ht₁⟩ := h₁
      obtain ⟨hh₂, ht₂⟩ := h₂
      have hk : k1 = k2 := by
        by_contra hk
        rcases lt_or_gt_of_ne hk with hlt | hgt
        · have h5 : alookup t₂ k1 = none :=
            alookup_eq_none_of_forall_ne
              (fun q hq => ne_of_gt (lt_trans hlt (hh₂ q hq)))
          have h6 : ¬ k2 = k1 := fun h7 => hk h7.symm
          have := h k1
          simp [alookup, h6, h5] at this
        · have h5 : alookup t₁ k2 = none :=
            alookup_eq_none_of_forall_ne
              (fun q hq => ne_of_gt (lt_trans hgt (hh₁ q hq)))
          have := h k2
          simp [alookup, hk, h5] at this
      subst hk
      have hv : v1 = v2 := by
        have := h k1
        simpa [alookup] using this
      subst hv
      have htl : t₁ = t₂ := by
        apply ih t₂ ht₁ ht₂
        intro k
        by_cases hk : k = k1
        · subst hk
          rw [alookup_eq_none_of_forall_ne (fun q hq => ne_of_gt (hh₁ q hq)),
            alookup_eq_none_of_forall_ne (fun q hq => ne_of_gt (hh₂ q hq))]
        · have hne : ¬ k1 = k := fun h5 => hk h5.symm
          have := h k
          simp only [alookup, if_neg hne] at this
          exact this
      rw [htl]

theorem memInv_new {K V : Type} [LinearOrder K] : memInv (MemTable.new : MemTable K V) :=
  fun _ => rfl

theorem memInv_put {K V : Type} [LinearOrder K] {m : MemTable K V} (h : memInv m)
    (key : K) (value : V) : memInv (m.put key value) := by
  intro k
  simp only [MemTable.put, alookup_btreeInsert]
  by_cases hk : k = key
  · subst hk
    simp
  · have hk2 : ¬ key = k := fun h5 => hk h5.symm
    simp [hk, hk2, h k]

theorem memInv_delete {K V : Type} [LinearOrder K] {m : MemTable K V} (h : memInv m)
    (key : K) : memInv (m.delete key) := by
  intro k
  simp only [MemTable.delete, alookup_btreeInsert]
  by_cases hk : k = key
  · subst hk
    simp
  · have hk2 : ¬ key = k := fun h5 => hk h5.symm
    simp [hk, hk2, h k]

theorem memInv_applyLogEntry {K V : Type} [LinearOrder K] {m : MemTable K V}
    (h : memInv m) (op : LogEntry K V) : memInv (applyLogEntry m op) := by
  cases op with
  | Put k v => exact memInv_put h k v
  | Delete k => exact memInv_delete h k

theorem memInv_applyLog {K V : Type} [LinearOrder K] {m : MemTable K V} (h : memInv m)
    (l : List (LogEntry K V)) : memInv (applyLog m l) := by
  induction l generalizing m with
  | nil => exact h
  | cons op l ih => exact ih (memInv_applyLogEntry h op)

theorem memInv_applyMOp {K V : Type} [LinearOrder K] {m : MemTable K V} (h : memInv m)
    (op : MOp K V) : memInv (applyMOp m op) := by
  cases op with
  | putOp k v => exact memInv_put h k v
  | deleteOp k => exact memInv_delete h k
  | clearOp => exact memInv_new

theorem memInv_applyMOps {K V : Type} [LinearOrder K] {m : MemTable K V} (h : memInv m)
    (ops : List (MOp K V)) : memInv (applyMOps m ops) := by
  induction ops generalizing m with
  | nil => exact h
  | cons op ops ih => exact ih (memInv_applyMOp h op)

theorem sortedKeys_applyLog {K V : Type} [LinearOrder K] {m : MemTable K V}
    (h : sortedKeys m.b_tree_map) (l : List (LogEntry K V)) :
    sortedKeys (applyLog m l).b_tree_map := by
  induction l generalizing m with
  | nil => exact h
  | cons op l ih =>
    apply ih
    cases op with
    | Put k v => exact sortedKeys_btreeInsert k _ h
    | Delete k => exact sortedKeys_btreeInsert k _ h

theorem orO_assoc {A : Type} (a b c : Option A) : orO (orO a b) c = orO a (orO b c) := by
  cases a <;> rfl

theorem orO_self_left {A : Type} (a b : Option A) : orO a (orO a b) = orO a b := by
  cases a <;> rfl

theorem findSome?_append_or {A B : Type} (xs ys : List A) (g : A → Option B) :
    (xs ++ ys).findSome? g = orO (xs.findSome? g) (ys.findSome? g) := by
  induction xs with
  | nil => rfl
  | cons x xs ih =>
    rw [List.cons_append, List.findSome?_cons, List.findSome?_cons]
    cases g x with
    | some b => rfl
    | none => exact ih

theorem hash_applyLogEntry {K V : Type} [LinearOrder K] (m : MemTable K V)
    (op : LogEntry K V) (k : K) :
    (applyLogEntry m op).hash_map k = orO (logTouch k op) (m.hash_map k) := by
  cases op with
  | Put k0 v =>
    by_cases h : k0 = k
    · subst h
      simp [applyLogEntry, MemTable.put, logTouch, orO]
    · have h2 : ¬ k = k0 := fun h5 => h h5.symm
      simp [applyLogEntry, MemTable.put, logTouch, h, h2, orO]
  | Delete k0 =>
    by_cases h : k0 = k
    · subst h
      simp [applyLogEntry, MemTable.delete, logTouch, orO]
    · have h2 : ¬ k = k0 := fun h5 => h h5.symm
      simp [applyLogEntry, MemTable.delete, logTouch, h, h2, orO]

theorem hash_applyLog {K V : Type} [LinearOrder K] (l : List (LogEntry K V)) :
    ∀ (m : MemTable K V) (k : K),
      (applyLog m l).hash_map k = orO (l.reverse.findSome? (logTouch k)) (m.hash_map k) := by
  induction l with
  | nil =>
    intro m k
    rfl
  | cons op l ih =>
    intro m k
    have h1 : applyLog m (op :: l) = applyLog (applyLogEntry m op) l := rfl
    rw [h1, ih, hash_applyLogEntry, List.reverse_cons, findSome?_append_or]
    have h2 : ([op] : List (LogEntry K V)).findSome? (logTouch k) = logTouch k op := by
      rw [List.findSome?_cons]
      cases logTouch k op <;> rfl
    rw [h2, orO_assoc]

/-- Claim C6: for every sequence of MemTable operations (put, delete,
clear) applied to a fresh MemTable, the sorted index and the hashed index
contain identical key sets holding identical Entry values on every key
(shared `Arc` references are modelled as equal values). -/
theorem c6_memtable_index_equivalence {K V : Type} [LinearOrder K]
    (ops : List (MOp K V)) (k : K) :
    alookup (applyMOps MemTable.new ops).b_tree_map k
      = (applyMOps MemTable.new ops).hash_map k :=
  memInv_applyMOps memInv_new ops k

/-- Claim C9: replaying a WAL record sequence twice into an empty MemTable
(Put as upsert, Delete as tombstone upsert, in order) produces the same
MemTable as replaying it once. -/
theorem c9_recovery_idempotent {K V : Type} [LinearOrder K] (l : List (LogEntry K V)) :
    applyLog (applyLog (MemTable.new : MemTable K V) l) l
      = applyLog (MemTable.new : MemTable K V) l := by
  have hsnew : sortedKeys (MemTable.new : MemTable K V).b_tree_map := List.Pairwise.nil
  have hhash : ∀ k, (applyLog (applyLog (MemTable.new : MemTable K V) l) l).hash_map k
      = (applyLog (MemTable.new : MemTable K V) l).hash_map k := by
    intro k
    rw [hash_applyLog, hash_applyLog]
    have hnew : (MemTable.new : MemTable K V).hash_map k = none := rfl
    rw [hnew, orO_self_left]
  apply memtable_eq
  · apply sorted_alookup_ext
    · exact sortedKeys_applyLog (sortedKeys_applyLog hsnew l) l
    · exact sortedKeys_applyLog hsnew l
    · intro k
      rw [memInv_applyLog (memInv_applyLog memInv_new l) l k,
        memInv_applyLog memInv_new l k]
      exact hhash k
  · funext k
    exact hhash k

theorem leBytes_length (w n : Nat) : (leBytes w n).length = w := by
  induction w generalizing n with
  | zero => rfl
  | succ w ih => simp [leBytes, ih]

theorem fromLE_leBytes {w n : Nat} (h : n < 256 ^ w) : fromLE (leBytes w n) = n := by
  induction w generalizing n with
  | zero =>
    have : n = 0 := by
      have := h
      simp at this
      omega
    simp [this, leBytes, fromLE]
  | succ w ih =>
    have hdiv : n / 256 < 256 ^ w := by
      rw [Nat.div_lt_iff_lt_mul (by norm_num : 0 < 256)]
      calc n < 256 ^ (w + 1) := h
        _ = 256 ^ w * 256 := by ring
    rw [leBytes, fromLE, ih hdiv, Nat.mod_add_div]

theorem frame_length (crc : List Nat → Nat) (p : List Nat) :
    (frame crc p).length = 4 + 8 + p.length := by
  simp [frame, leBytes_length]
  omega

theorem buildData_alookup_none {K V : Type} [DecidableEq K] (crc : List Nat → Nat)
    (serEntry : Entry V → List Nat) (entries : List (K × Entry V)) (off0 : Nat) (k : K)
    (h : alookup entries k = none) :
    alookup (buildData crc serEntry entries off0).2 k = none := by
  induction entries generalizing off0 with
  | nil => rfl
  | cons p rest ih =>
    obtain ⟨k0, e0⟩ := p
    by_cases hk : k0 = k
    · rw [alookup, if_pos hk] at h
      exact absurd h (by simp)
    · rw [alookup, if_neg hk] at h
      simp only [buildData, alookup, if_neg hk]
      exact ih _ h

theorem buildData_alookup_some {K V : Type} [DecidableEq K] (crc : List Nat → Nat)
    (serEntry : Entry V → List Nat) (entries : List (K × Entry V)) :
    ∀ (off0 : Nat) (k : K) (e : Entry V), alookup entries k = some e →
      ∃ off r, alookup (buildData crc serEntry entries off0).2 k = some off ∧
        off0 ≤ off ∧
        (buildData crc serEntry entries off0).1.drop (off - off0)
          = frame crc (serEntry e) ++ r := by
  induction entries with
  | nil =>
    intro off0 k e h
    exact absurd h (by simp [alookup])
  | cons p rest ih =>
    obtain ⟨k0, e0⟩ := p
    intro off0 k e h
    by_cases hk : k0 = k
    · rw [alookup, if_pos hk] at h
      injection h with h
      subst h
      refine ⟨off0, (buildData crc serEntry rest (off0 + 4 + 8 + (serEntry e0).length)).1,
        ?_, le_refl _, ?_⟩
      · simp [buildData, alookup, hk]
      · simp [buildData]
    · rw [alookup, if_neg hk] at h
      obtain ⟨off, r, h1, h2, h3⟩ := ih (off0 + 4 + 8 + (serEntry e0).length) k e h
      refine ⟨off, r, ?_, by omega, ?_⟩
      · simp only [buildData, alookup, if_neg hk]
        exact h1
      · have hfl : (frame crc (serEntry e0)).length = 4 + 8 + (serEntry e0).length :=
          frame_length crc (serEntry e0)
      -- the data section of the cons case is the head frame followed by the rest
        show ((frame crc (serEntry e0))
          ++ (buildData crc serEntry rest (off0 + 4 + 8 + (serEntry e0).length)).1).drop
            (off - off0) = frame crc (serEntry e) ++ r
        rw [List.drop_append_eq_append_drop]
        have hnil : (frame crc (serEntry e0)).drop (off - off0) = [] :=
          List.drop_eq_nil_of_le (by omega)
        have harith : off - off0 - (frame crc (serEntry e0)).length
            = off - (off0 + 4 + 8 + (serEntry e0).length) := by omega
        rw [hnil, List.nil_append, harith]
        exact h3

theorem pow_256_eq : (256 : Nat) ^ 8 = 2 ^ 64 := by norm_num

theorem sstOpen_layout {K : Type} (deserIndex : List Nat → Option (List (K × Nat)))
    (path : String) (d si : List Nat) (idx : List (K × Nat))
    (hd : d.length < 2 ^ 64) (hsi : si.length < 2 ^ 64)
    (hde : deserIndex si = some idx) :
    sstOpen deserIndex path
        (d ++ si ++ leBytes 8 d.length ++ leBytes 8 si.length ++ leBytes 8 MAGIC)
      = some { path := path,
               file := d ++ si ++ leBytes 8 d.length ++ leBytes 8 si.length
                 ++ leBytes 8 MAGIC,
               index := idx } := by
  set F := d ++ si ++ leBytes 8 d.length ++ leBytes 8 si.length ++ leBytes 8 MAGIC with hF
  have hassoc : F = (d ++ si)
      ++ (leBytes 8 d.length ++ (leBytes 8 si.length ++ leBytes 8 MAGIC)) := by
    simp [hF, List.append_assoc]
  have hFlen : F.length = (d ++ si).length + 24 := by
    rw [hassoc]
    simp [leBytes_length]
    omega
  have h24 : ¬ F.length < 24 := by omega
  have hfooter : F.drop (F.length - 24)
      = leBytes 8 d.length ++ (leBytes 8 si.length ++ leBytes 8 MAGIC) := by
    have : F.length - 24 = (d ++ si).length := by omega
    rw [this, hassoc, List.drop_left]
  have htake1 : (leBytes 8 d.length ++ (leBytes 8 si.length ++ leBytes 8 MAGIC)).take 8
      = leBytes 8 d.length := List.take_left' (leBytes_length 8 _)
  have hdrop1 : (leBytes 8 d.length ++ (leBytes 8 si.length ++ leBytes 8 MAGIC)).drop 8
      = leBytes 8 si.length ++ leBytes 8 MAGIC := List.drop_left' (leBytes_length 8 _)
  have htake2 : (leBytes 8 si.length ++ leBytes 8 MAGIC).take 8 = leBytes 8 si.length :=
    List.take_left' (leBytes_length 8 _)
  have hdrop16 : (leBytes 8 d.length ++ (leBytes 8 si.length ++ leBytes 8 MAGIC)).drop 16
      = leBytes 8 MAGIC := by
    have h16 : (16 : Nat) = 8 + 8 := rfl
    rw [h16, ← List.drop_drop, hdrop1, List.drop_left' (leBytes_length 8 _)]
  have htakeM : (leBytes 8 MAGIC).take 8 = leBytes 8 MAGIC := by
    apply List.take_of_length_le
    rw [leBytes_length]
  have hio : fromLE (leBytes 8 d.length) = d.length :=
    fromLE_leBytes (by rw [pow_256_eq]; exact hd)
  have his : fromLE (leBytes 8 si.length) = si.length :=
    fromLE_leBytes (by rw [pow_256_eq]; exact hsi)
  have hmagic : fromLE (leBytes 8 MAGIC) = MAGIC :=
    fromLE_leBytes (by rw [pow_256_eq]; norm_num [MAGIC])
  have hregion : F.drop d.length
      = si ++ (leBytes 8 d.length ++ (leBytes 8 si.length ++ leBytes 8 MAGIC)) := by
    have : F = d ++ (si ++ (leBytes 8 d.length
        ++ (leBytes 8 si.length ++ leBytes 8 MAGIC))) := by
      simp [hF, List.append_assoc]
    rw [this, List.drop_left]
  have hreglen : ¬ (si ++ (leBytes 8 d.length
      ++ (leBytes 8 si.length ++ leBytes 8 MAGIC))).length < si.length := by
    simp
  have hregtake : (si ++ (leBytes 8 d.length
      ++ (leBytes 8 si.length ++ leBytes 8 MAGIC))).take si.length = si :=
    List.take_left si _
  rw [sstOpen, if_neg h24]
  simp only [hfooter, htake1, hdrop1, htake2, hdrop16, htakeM, hio, his, hmagic,
    hregion, hregtake]
  rw [if_neg (by simp [MAGIC])]
  rw [if_neg hreglen, hde]

theorem pow_256_4_eq : (256 : Nat) ^ 4 = 2 ^ 32 := by norm_num


theorem sstGet_eval {K V : Type} [DecidableEq K] (crc : List Nat → Nat)
    (deserEntry : List Nat → Option (Entry V)) (t : SSTModel K) (key : K) (off : Nat)
    (p X : List Nat) (e : Entry V)
    (h1 : alookup t.index key = some off)
    (h2 : t.file.drop off = leBytes 4 (crc p) ++ (leBytes 8 p.length ++ (p ++ X)))
    (hplen : p.length < 2 ^ 64) (hcrcp : crc p < 2 ^ 32)
    (hde : deserEntry p = some e) :
    sstGet crc deserEntry t key = .ok (some e) := by
  have c1 : ¬ (leBytes 4 (crc p) ++ (leBytes 8 p.length ++ (p ++ X))).length < 4 := by
    simp [leBytes_length]
  have c2 : ¬ (leBytes 8 p.length ++ (p ++ X)).length < 8 := by
    simp [leBytes_length]
  have c3 : ¬ (p ++ X).length < p.length := by
    simp
  have e1 : (leBytes 4 (crc p) ++ (leBytes 8 p.length ++ (p ++ X))).take 4
      = leBytes 4 (crc p) := List.take_left' (leBytes_length 4 (crc p))
  have e2 : (leBytes 4 (crc p) ++ (leBytes 8 p.length ++ (p ++ X))).drop 4
      = leBytes 8 p.length ++ (p ++ X) := List.drop_left' (leBytes_length 4 (crc p))
  have e5 : (leBytes 8 p.length ++ (p ++ X)).take 8 = leBytes 8 p.length :=
    List.take_left' (leBytes_length 8 p.length)
  have e6 : (leBytes 8 p.length ++ (p ++ X)).drop 8 = p ++ X :=
    List.drop_left' (leBytes_length 8 p.length)
  have e7 : (p ++ X).take p.length = p := List.take_left p X
  have e3 : fromLE (leBytes 4 (crc p)) = crc p :=
    fromLE_leBytes (by rw [pow_256_4_eq]; exact hcrcp)
  have e4 : fromLE (leBytes 8 p.length) = p.length :=
    fromLE_leBytes (by rw [pow_256_eq]; exact hplen)
  have c4 : ¬ (crc p ≠ crc p) := by simp
  rw [sstGet, h1]
  simp only [h2, e1, e2, e3, e4, e5, e6, e7]
  rw [if_neg c1, if_neg c2, if_neg c3, if_neg c4, hde]

/-- Claim C5: writing a MemTable to a fresh SSTable via
`write_from_memtable` and reading any key back yields exactly the
MemTable Entry for that key (tombstones included), and absent for keys the
MemTable does not hold. Stated for any serializer/deserializer pair
satisfying the round-trip law (the `bincode` assumption), any checksum
function with values in `u32` range (the `crc32fast` assumption), and any
MemTable whose serialized file fits in a `u64`-addressed file (true of
every real file). -/
theorem c5_sstable_roundtrip {K V : Type} [DecidableEq K]
    (crc : List Nat → Nat) (serEntry : Entry V → List Nat)
    (serIndex : List (K × Nat) → List Nat)
    (deserIndex : List Nat → Option (List (K × Nat)))
    (deserEntry : List Nat → Option (Entry V))
    (hser : ∀ e, deserEntry (serEntry e) = some e)
    (hidx : ∀ i, deserIndex (serIndex i) = some i)
    (hcrc : ∀ b, crc b < 2 ^ 32)
    (path : String) (m : MemTable K V)
    (hlen : (sstFileBytes crc serEntry serIndex m).length < 2 ^ 64)
    (k : K) :
    ∃ t, writeFromMemtable crc serEntry serIndex deserIndex path m = some t ∧
      sstGet crc deserEntry t k = .ok (alookup m.b_tree_map k) := by
  have hfile : sstFileBytes crc serEntry serIndex m
      = (buildData crc serEntry m.b_tree_map 0).1
        ++ serIndex (buildData crc serEntry m.b_tree_map 0).2
        ++ leBytes 8 (buildData crc serEntry m.b_tree_map 0).1.length
        ++ leBytes 8 (serIndex (buildData crc serEntry m.b_tree_map 0).2).length
        ++ leBytes 8 MAGIC := rfl
  have hcomp : (sstFileBytes crc serEntry serIndex m).length
      = (buildData crc serEntry m.b_tree_map 0).1.length
        + (serIndex (buildData crc serEntry m.b_tree_map 0).2).length + 24 := by
    rw [hfile]
    simp [leBytes_length]
    omega
  have hdl : (buildData crc serEntry m.b_tree_map 0).1.length < 2 ^ 64 := by omega
  have hsil : (serIndex (buildData crc serEntry m.b_tree_map 0).2).length < 2 ^ 64 := by
    omega
  have hopen := sstOpen_layout deserIndex path (buildData crc serEntry m.b_tree_map 0).1
    (serIndex (buildData crc serEntry m.b_tree_map 0).2)
    (buildData crc serEntry m.b_tree_map 0).2 hdl hsil
    (hidx (buildData crc serEntry m.b_tree_map 0).2)
  refine ⟨_, by rw [writeFromMemtable, hfile]; exact hopen, ?_⟩
  cases h : alookup m.b_tree_map k with
  | none =>
    have hno : alookup (buildData crc serEntry m.b_tree_map 0).2 k = none :=
      buildData_alookup_none crc serEntry m.b_tree_map 0 k h
    simp [sstGet, hno]
  | some e =>
    obtain ⟨off, r, h1, _h2, h3⟩ :=
      buildData_alookup_some crc serEntry m.b_tree_map 0 k e h
    rw [Nat.sub_zero] at h3
    have hlen3 := congrArg List.length h3
    simp only [List.length_drop, List.length_append, frame_length] at hlen3
    have hoff : off < (buildData crc serEntry m.b_tree_map 0).1.length := by
      by_contra hc
      push_neg at hc
      rw [List.drop_eq_nil_of_le hc] at h3
      have := congrArg List.length h3
      simp [frame_length] at this
      omega
    have hplen : (serEntry e).length < 2 ^ 64 := by omega
    have hrest : ((buildData crc serEntry m.b_tree_map 0).1
          ++ serIndex (buildData crc serEntry m.b_tree_map 0).2
          ++ leBytes 8 (buildData crc serEntry m.b_tree_map 0).1.length
          ++ leBytes 8 (serIndex (buildData crc serEntry m.b_tree_map 0).2).length
          ++ leBytes 8 MAGIC).drop off
        = leBytes 4 (crc (serEntry e)) ++ (leBytes 8 (serEntry e).length
          ++ (serEntry e ++ (r
            ++ (serIndex (buildData crc serEntry m.b_tree_map 0).2
              ++ (leBytes 8 (buildData crc serEntry m.b_tree_map 0).1.length
                ++ (leBytes 8 (serIndex (buildData crc serEntry m.b_tree_map 0).2).length
                  ++ leBytes 8 MAGIC)))))) := by
      rw [List.append_assoc, List.append_assoc, List.append_assoc,
        List.drop_append_eq_append_drop, h3]
      have h0 : off - (buildData crc serEntry m.b_tree_map 0).1.length = 0 := by omega
      rw [h0, List.drop_zero]
      simp [frame, List.append_assoc]
    exact sstGet_eval crc deserEntry _ k off (serEntry e) _ e h1 hrest hplen
      (hcrc (serEntry e)) (hser e)

theorem walNext_eq_none_iff {K V : Type} (crc : List Nat → Nat)
    (deserLog : List Nat → Option (LogEntry K V)) (bytes : List Nat) (pos : Nat) :
    walNext crc deserLog bytes pos = none ↔ (bytes.drop pos).length < 4 := by
  by_cases h4 : (bytes.drop pos).length < 4
  · simp only [walNext, if_pos h4]
    exact iff_of_true trivial h4
  · apply iff_of_false _ h4
    intro hnone
    simp only [walNext, if_neg h4] at hnone
    split at hnone
    · simp at hnone
    · split at hnone
      · simp at hnone
      · split at hnone
        · simp at hnone
        · split at hnone <;> simp at hnone

/-- Claim C4: one step of the WAL replay iterator reads a 4-byte CRC, an
8-byte length and the payload, verifies the CRC and deserializes. It yields
end-of-stream exactly when end-of-file occurs while attempting to read the
CRC (fewer than 4 bytes remain — `read_exact` reports `UnexpectedEof` both
on an empty remainder and on a 1-3 byte remainder, and the code maps that
to clean end of stream); every other failure inside a frame — short read of
the length field, short read of the payload, CRC mismatch, deserialization
failure — is surfaced as an error item, never as silent termination. -/
theorem c4_wal_replay_classification {K V : Type} (crc : List Nat → Nat)
    (deserLog : List Nat → Option (LogEntry K V)) (bytes : List Nat) (pos : Nat) :
    (walNext crc deserLog bytes pos = none ↔ (bytes.drop pos).length < 4)
    ∧ (4 ≤ (bytes.drop pos).length → (bytes.drop pos).length < 12 →
        ∃ msg, walNext crc deserLog bytes pos = some (.error msg))
    ∧ (12 ≤ (bytes.drop pos).length →
        (bytes.drop pos).length < 12 + fromLE (((bytes.drop pos).drop 4).take 8) →
        ∃ msg, walNext crc deserLog bytes pos = some (.error msg))
    ∧ (12 ≤ (bytes.drop pos).length →
        12 + fromLE (((bytes.drop pos).drop 4).take 8) ≤ (bytes.drop pos).length →
        crc ((((bytes.drop pos).drop 4).drop 8).take
            (fromLE (((bytes.drop pos).drop 4).take 8)))
          ≠ fromLE ((bytes.drop pos).take 4) →
        ∃ msg, walNext crc deserLog bytes pos = some (.error msg))
    ∧ (12 ≤ (bytes.drop pos).length →
        12 + fromLE (((bytes.drop pos).drop 4).take 8) ≤ (bytes.drop pos).length →
        crc ((((bytes.drop pos).drop 4).drop 8).take
            (fromLE (((bytes.drop pos).drop 4).take 8)))
          = fromLE ((bytes.drop pos).take 4) →
        deserLog ((((bytes.drop pos).drop 4).drop 8).take
            (fromLE (((bytes.drop pos).drop 4).take 8))) = none →
        ∃ msg, walNext crc deserLog bytes pos = some (.error msg))
    ∧ (∀ entry, 12 ≤ (bytes.drop pos).length →
        12 + fromLE (((bytes.drop pos).drop 4).take 8) ≤ (bytes.drop pos).length →
        crc ((((bytes.drop pos).drop 4).drop 8).take
            (fromLE (((bytes.drop pos).drop 4).take 8)))
          = fromLE ((bytes.drop pos).take 4) →
        deserLog ((((bytes.drop pos).drop 4).drop 8).take
            (fromLE (((bytes.drop pos).drop 4).take 8))) = some entry →
        walNext crc deserLog bytes pos = some (.ok entry)) := by
  refine ⟨walNext_eq_none_iff crc deserLog bytes pos, ?_, ?_, ?_, ?_, ?_⟩
  · intro h4 h12
    refine ⟨"Failed to read log entry length", ?_⟩
    have hn4 : ¬ (bytes.drop pos).length < 4 := by omega
    have h8 : ((bytes.drop pos).drop 4).length < 8 := by
      rw [List.length_drop]
      omega
    simp only [walNext]
    rw [if_neg hn4, if_pos h8]
  · intro h12 hshort
    refine ⟨"Failed to read log entry data", ?_⟩
    have hn4 : ¬ (bytes.drop pos).length < 4 := by omega
    have hn8 : ¬ ((bytes.drop pos).drop 4).length < 8 := by
      rw [List.length_drop]
      omega
    have hav : (((bytes.drop pos).drop 4).drop 8).length
        < fromLE (((bytes.drop pos).drop 4).take 8) := by
      rw [List.length_drop, List.length_drop]
      omega
    simp only [walNext]
    rw [if_neg hn4, if_neg hn8, if_pos hav]
  · intro h12 hfit hne
    refine ⟨"WAL entry checksum mismatch", ?_⟩
    have hn4 : ¬ (bytes.drop pos).length < 4 := by omega
    have hn8 : ¬ ((bytes.drop pos).drop 4).length < 8 := by
      rw [List.length_drop]
      omega
    have hnav : ¬ (((bytes.drop pos).drop 4).drop 8).length
        < fromLE (((bytes.drop pos).drop 4).take 8) := by
      rw [List.length_drop, List.length_drop]
      omega
    simp only [walNext]
    rw [if_neg hn4, if_neg hn8, if_neg hnav, if_pos hne]
  · intro h12 hfit heq hde
    refine ⟨"deserialization failure", ?_⟩
    have hn4 : ¬ (bytes.drop pos).length < 4 := by omega
    have hn8 : ¬ ((bytes.drop pos).drop 4).length < 8 := by
      rw [List.length_drop]
      omega
    have hnav : ¬ (((bytes.drop pos).drop 4).drop 8).length
        < fromLE (((bytes.drop pos).drop 4).take 8) := by
      rw [List.length_drop, List.length_drop]
      omega
    simp only [walNext]
    rw [if_neg hn4, if_neg hn8, if_neg hnav, if_neg (fun hc => hc heq), hde]
  · intro entry h12 hfit heq hde
    have hn4 : ¬ (bytes.drop pos).length < 4 := by omega
    have hn8 : ¬ ((bytes.drop pos).drop 4).length < 8 := by
      rw [List.length_drop]
      omega
    have hnav : ¬ (((bytes.drop pos).drop 4).drop 8).length
        < fromLE (((bytes.drop pos).drop 4).take 8) := by
      rw [List.length_drop, List.length_drop]
      omega
    simp only [walNext]
    rw [if_neg hn4, if_neg hn8, if_neg hnav, if_neg (fun hc => hc heq), hde]

/-- Claim C7: in DB::flush_memtable the WAL is truncated only after
`SSTable::write_from_memtable` has returned successfully. When the SSTable
write fails, the flush returns the error with the state — WAL content and
MemTable included — untouched, and neither `wal.clear` nor
`memtable.clear` is reached; on success the side effects happen in the
order SSTable write, MemTable clear (with the size reset), WAL truncate. -/
theorem c7_flush_wal_truncation_ordering {K V : Type} (crc : List Nat → Nat)
    (serEntry : Entry V → List Nat) (serIndex : List (K × Nat) → List Nat)
    (deserIndex : List Nat → Option (List (K × Nat))) (wf : Bool) (name : String)
    (s : DBState K V) :
    ((flushMemtable crc serEntry serIndex deserIndex wf name s).1 = .error .ioErr →
      (flushMemtable crc serEntry serIndex deserIndex wf name s).2.1 = s
      ∧ Ev.walClear ∉ (flushMemtable crc serEntry serIndex deserIndex wf name s).2.2
      ∧ Ev.memClear ∉ (flushMemtable crc serEntry serIndex deserIndex wf name s).2.2)
    ∧ ((flushMemtable crc serEntry serIndex deserIndex wf name s).1 = .ok () →
      (flushMemtable crc serEntry serIndex deserIndex wf name s).2.2
        = [Ev.sstWrite true, Ev.memClear, Ev.walClear]
      ∧ (flushMemtable crc serEntry serIndex deserIndex wf name s).2.1.wal = []
      ∧ (flushMemtable crc serEntry serIndex deserIndex wf name s).2.1.memtable
          = MemTable.new
      ∧ (flushMemtable crc serEntry serIndex deserIndex wf name s).2.1.memtable_size
          = 0) := by
  cases hw : (if wf then none
      else writeFromMemtable crc serEntry serIndex deserIndex name s.memtable) with
  | none =>
    constructor
    · intro _
      refine ⟨?_, ?_, ?_⟩ <;> simp [flushMemtable, hw]
    · intro h
      simp [flushMemtable, hw] at h
  | some t =>
    constructor
    · intro h
      simp [flushMemtable, hw] at h
    · intro _
      refine ⟨?_, ?_, ?_, ?_⟩ <;> simp [flushMemtable, hw, MemTable.clear]

/-- Claim C3: in DB::put and DB::delete the LogEntry is appended to the WAL
and the WAL flushed before the MemTable is mutated: a failed append or
flush propagates the error and leaves the MemTable unchanged, and whenever
the MemTable mutation event occurs it is strictly preceded by a successful
append and a successful flush. -/
theorem c3_wal_errors_leave_memtable_unchanged {K V : Type} [LinearOrder K]
    (crc : List Nat → Nat) (serEntry : Entry V → List Nat)
    (serIndex : List (K × Nat) → List Nat)
    (deserIndex : List Nat → Option (List (K × Nat))) (kSz vSz : Nat)
    (af ff wf : Bool) (name : String) (s : DBState K V) (key : K) (value : V) :
    ((af = true ∨ ff = true) →
      (dbPut crc serEntry serIndex deserIndex kSz vSz af ff wf name s key value).1
          = .error .ioErr
      ∧ (dbPut crc serEntry serIndex deserIndex kSz vSz af ff wf name
          s key value).2.1.memtable = s.memtable
      ∧ (dbDelete af ff s key).1 = .error .ioErr
      ∧ (dbDelete af ff s key).2.1.memtable = s.memtable)
    ∧ (Ev.memPut ∈ (dbPut crc serEntry serIndex deserIndex kSz vSz af ff wf name
          s key value).2.2 →
        ∃ tr, (dbPut crc serEntry serIndex deserIndex kSz vSz af ff wf name
          s key value).2.2 = Ev.append true :: Ev.flushWal true :: Ev.memPut :: tr)
    ∧ (Ev.memDel ∈ (dbDelete af ff s key).2.2 →
        (dbDelete af ff s key).2.2
          = [Ev.append true, Ev.flushWal true, Ev.memDel]) := by
  cases af with
  | true =>
    refine ⟨fun _ => ⟨rfl, rfl, rfl, rfl⟩, ?_, ?_⟩
    · intro hmem
      exact absurd hmem (by simp [dbPut])
    · intro hmem
      exact absurd hmem (by simp [dbDelete])
  | false =>
    cases ff with
    | true =>
      refine ⟨fun _ => ⟨rfl, rfl, rfl, rfl⟩, ?_, ?_⟩
      · intro hmem
        exact absurd hmem (by simp [dbPut])
      · intro hmem
        exact absurd hmem (by simp [dbDelete])
    | false =>
      refine ⟨?_, ?_, fun _ => rfl⟩
      · intro h
        rcases h with h | h <;> simp at h
      · intro _
        simp only [dbPut, Bool.false_eq_true, if_false]
        by_cases hth : s.memtable_size + kSz + vSz > s.max_memtable_size
        · refine ⟨(flushMemtable crc serEntry serIndex deserIndex wf name
            { memtable := s.memtable.put key value,
              wal := s.wal ++ [LogEntry.Put key value],
              levels := s.levels, max_memtable_size := s.max_memtable_size,
              memtable_size := s.memtable_size + kSz + vSz }).2.2, ?_⟩
          rw [if_pos hth]
          rfl
        · refine ⟨[], ?_⟩
          rw [if_neg hth]

/-- Claim C10: DB::put adds the key and value sizes to `memtable_size`
before attempting the WAL append, so a put that fails in the WAL append or
flush returns the error with the MemTable unchanged while `memtable_size`
has nevertheless grown by exactly those sizes (later pushing a write past
the flush threshold earlier than the MemTable contents warrant). -/
theorem c10_size_grows_on_failed_put {K V : Type} [LinearOrder K]
    (crc : List Nat → Nat) (serEntry : Entry V → List Nat)
    (serIndex : List (K × Nat) → List Nat)
    (deserIndex : List Nat → Option (List (K × Nat))) (kSz vSz : Nat)
    (af ff wf : Bool) (name : String) (s : DBState K V) (key : K) (value : V) :
    (af = true ∨ ff = true) →
      (dbPut crc serEntry serIndex deserIndex kSz vSz af ff wf name s key value).1
          = .error .ioErr
      ∧ (dbPut crc serEntry serIndex deserIndex kSz vSz af ff wf name
          s key value).2.1.memtable = s.memtable
      ∧ (dbPut crc serEntry serIndex deserIndex kSz vSz af ff wf name
          s key value).2.1.memtable_size = s.memtable_size + kSz + vSz := by
  intro h
  cases af with
  | true => exact ⟨rfl, rfl, rfl⟩
  | false =>
    cases ff with
    | true => exact ⟨rfl, rfl, rfl⟩
    | false => rcases h with h | h <;> simp at h

/-- Claim C1 (code bug): DB::open computes and sorts the levels loaded from
disk, but then constructs the returned DB with `levels: vec![Vec::new()]`,
discarding them. On a directory holding one well-formed SSTable file the
computed levels hold exactly that file at level 0, while the DB actually
returned carries a single empty level, so no DB::get ever consults the
loaded table. -/
theorem c1_open_discards_loaded_levels :
    openLevelsResult ["L0-00000000000000000001.sst"] = .ok [[]]
    ∧ computedLevels ["L0-00000000000000000001.sst"]
        = .ok [["L0-00000000000000000001.sst"]]
    ∧ ((.ok [[]] : Except String (List (List String)))
        ≠ .ok [["L0-00000000000000000001.sst"]]) := by
  refine ⟨by decide, by decide, by decide⟩

/-- Claim C2 (code bug): DB::get consults the MemTable through
`MemTable::get`, which filters tombstones out, so a tombstone in the
MemTable does not yield absent: the scan falls through to the SSTables and
returns a stale live value. Concretely: after key 1 (value 42) is flushed
to a level-0 SSTable and then deleted, the MemTable holds a tombstone for
key 1 yet DB::get returns 42 instead of absent. -/
theorem c2_memtable_tombstone_not_shadowing :
    stateC2.memtable.hash_map 1 = some { value := none, is_tombstone := true }
    ∧ dbGet crcToy deserEntryToy stateC2 1 = .ok (some 42)
    ∧ ((.ok (some 42) : Except String (Option Nat)) ≠ .ok none) := by
  refine ⟨by decide, by decide, by decide⟩

/-- Claim C8 (code bug): the filename handling of DB::load_levels neither
warns-and-skips every unparseable `.sst` name nor avoids panicking: a file
named `-orphan.sst` makes `&parts[0][1..]` panic (byte index out of
bounds on the empty first component), and a file named `X0-1.sst`, whose
level part lacks the `L` marker, is loaded at level 0 instead of being
skipped. -/
theorem c8_load_levels_panics_and_misloads :
    loadLevels ["-orphan.sst"] = .error "panicked: byte index 1 is out of bounds"
    ∧ loadLevels ["X0-1.sst"] = .ok [(0, ["X0-1.sst"])]
    ∧ parseSSTName "-orphan.sst" = .panicked
    ∧ parseSSTName "X0-1.sst" = .levelIdx 0 := by
  refine ⟨by decide, by decide, by decide, by decide⟩

theorem toyEntry_roundtrip : ∀ e, deserEntryToy (serEntryToy e) = some e := by
  intro e
  obtain ⟨v, t⟩ := e
  cases v <;> cases t <;> rfl

theorem toyIndex_roundtrip : ∀ i, deserIndexToy (serIndexToy i) = some i := by
  intro i
  induction i with
  | nil => rfl
  | cons p rest ih =>
    obtain ⟨k, o⟩ := p
    simp [serIndexToy, deserIndexToy, ih]

theorem crcToy_lt : ∀ b, crcToy b < 2 ^ 32 := by
  intro b
  exact Nat.mod_lt _ (by norm_num)

theorem c3_witness :
    (true = true ∨ false = true)
    ∧ ((dbPut crcToy serEntryToy serIndexToy deserIndexToy 8 8 true false false
        "L0-00000000000000000003.sst" dbS0 1 2).1 = .error .ioErr
      ∧ (dbPut crcToy serEntryToy serIndexToy deserIndexToy 8 8 true false false
        "L0-00000000000000000003.sst" dbS0 1 2).2.1.memtable = dbS0.memtable
      ∧ (dbDelete true false dbS0 1).1 = .error .ioErr
      ∧ (dbDelete true false dbS0 1).2.1.memtable = dbS0.memtable) :=
  ⟨Or.inl rfl,
    (c3_wal_errors_leave_memtable_unchanged crcToy serEntryToy serIndexToy
      deserIndexToy 8 8 true false false "L0-00000000000000000003.sst" dbS0 1 2).1
      (Or.inl rfl)⟩

theorem c7_witness :
    ((flushMemtable crcToy serEntryToy serIndexToy deserIndexToy true
        "L0-00000000000000000004.sst" dbS0).1 = .error .ioErr)
    ∧ ((flushMemtable crcToy serEntryToy serIndexToy deserIndexToy true
        "L0-00000000000000000004.sst" dbS0).2.1 = dbS0
      ∧ Ev.walClear ∉ (flushMemtable crcToy serEntryToy serIndexToy deserIndexToy true
        "L0-00000000000000000004.sst" dbS0).2.2
      ∧ Ev.memClear ∉ (flushMemtable crcToy serEntryToy serIndexToy deserIndexToy true
        "L0-00000000000000000004.sst" dbS0).2.2) :=
  ⟨rfl,
    (c7_flush_wal_truncation_ordering crcToy serEntryToy serIndexToy deserIndexToy
      true "L0-00000000000000000004.sst" dbS0).1 rfl⟩

theorem c10_witness :
    (true = true ∨ false = true)
    ∧ ((dbPut crcToy serEntryToy serIndexToy deserIndexToy 8 8 true false false
        "L0-00000000000000000005.sst" dbS0 1 2).1 = .error .ioErr
      ∧ (dbPut crcToy serEntryToy serIndexToy deserIndexToy 8 8 true false false
        "L0-00000000000000000005.sst" dbS0 1 2).2.1.memtable = dbS0.memtable
      ∧ (dbPut crcToy serEntryToy serIndexToy deserIndexToy 8 8 true false false
        "L0-00000000000000000005.sst" dbS0 1 2).2.1.memtable_size
          = dbS0.memtable_size + 8 + 8) :=
  ⟨Or.inl rfl,
    c10_size_grows_on_failed_put crcToy serEntryToy serIndexToy deserIndexToy 8 8
      true false false "L0-00000000000000000005.sst" dbS0 1 2 (Or.inl rfl)⟩

theorem c4_witness :
    walNext crcToy deserLogToy ([1, 2, 3] : List Nat) 0 = none
    ∧ (∃ msg, walNext crcToy deserLogToy
        ([0, 0, 0, 0, 1, 0, 0, 0, 0, 0, 0, 0, 9] : List Nat) 0
          = some (.error msg)) :=
  ⟨(c4_wal_replay_classification crcToy deserLogToy [1, 2, 3] 0).1.mpr (by decide),
    (c4_wal_replay_classification crcToy deserLogToy
        [0, 0, 0, 0, 1, 0, 0, 0, 0, 0, 0, 0, 9] 0).2.2.2.1
      (by decide) (by decide) (by decide)⟩

theorem c5_witness :
    deserEntryToy (serEntryToy { value := none, is_tombstone := true })
        = some { value := none, is_tombstone := true }
    ∧ crcToy [3] < 2 ^ 32
    ∧ (sstFileBytes crcToy serEntryToy serIndexToy memC5).length < 2 ^ 64
    ∧ (∃ t, writeFromMemtable crcToy serEntryToy serIndexToy deserIndexToy
        "L0-00000000000000000002.sst" memC5 = some t
      ∧ sstGet crcToy deserEntryToy t 2 = .ok (alookup memC5.b_tree_map 2)) :=
  ⟨by decide, by decide, by decide,
    c5_sstable_roundtrip crcToy serEntryToy serIndexToy deserIndexToy deserEntryToy
      toyEntry_roundtrip toyIndex_roundtrip crcToy_lt
      "L0-00000000000000000002.sst" memC5 (by decide) 2⟩

end GPDB
